import Mathlib

/-!
Shallow embedding of the asynchronous job execution engine of this
repository (`job_queue.py`) and of its principal workload, the document
ingestion pipeline (`async_document_processor.py`).

Machine-level conventions of the embedding:
* Python `float` progress values are embedded as `Rat`: the engine only
  ever assigns progress values, never computes with them, so rational
  literals model the source exactly.
* `uuid.uuid4()` is embedded as a fresh-id counter (`nextId`); the only
  property the code relies on is freshness of the generated id.
* `datetime.utcnow()` values are opaque `Nat` clock readings passed in.
* Python exceptions are embedded as `Except String`; `str(e)` is the
  carried message, `traceback.format_exc()` is modelled by `formatExc`.
-/

namespace JobQueueModel

/-- The `JobStatus` enum of `job_queue.py`. -/
inductive JobStatus where
  | QUEUED
  | RUNNING
  | DONE
  | ERROR
deriving DecidableEq, Repr

open JobStatus

/-- The `Job` dataclass of `job_queue.py`.  `π` is the type of the opaque
`params` payload, `ρ` the type of the opaque `result` payload. -/
structure Job (π ρ : Type) where
  id : Nat
  type : String
  status : JobStatus
  created_at : Nat
  started_at : Option Nat := none
  completed_at : Option Nat := none
  progress : Rat := 0
  progress_message : String := ""
  error : Option String := none
  result : Option ρ := none
  params : π
deriving Repr

/-- One run of a handler on given params: the sequence of
`update_progress(fraction, message)` calls it makes, followed by either a
normal return (`.ok`) or a raised exception message (`.error`). -/
structure HandlerRun (ρ : Type) where
  events : List (Rat × String)
  outcome : Except String ρ

/-- A registered handler: `(params, update_progress) -> result`. -/
def Handler (π ρ : Type) := π → HandlerRun ρ

/-- Model of the Python `traceback.format_exc()` output for an exception whose
`str` is `e`: a non-empty diagnostic string carrying the message. -/
def formatExc (e : String) : String :=
  "Traceback (most recent call last): Exception: " ++ e

/-- Embedding of `job.status = RUNNING; job.started_at = datetime.utcnow()`. -/
def markRunning {π ρ : Type} (now : Nat) (j : Job π ρ) : Job π ρ :=
  { j with status := RUNNING, started_at := some now }

/-- One `update_progress(progress, message)` call. -/
def reportProgress {π ρ : Type} (p : Rat) (msg : String) (j : Job π ρ) : Job π ρ :=
  { j with progress := p, progress_message := msg }

/-- Replay of the `update_progress` callback of `_process_job`: each call
overwrites `progress` and `progress_message`. -/
def applyProgress {π ρ : Type} (j : Job π ρ) (ev : List (Rat × String)) : Job π ρ :=
  ev.foldl (fun j e => reportProgress e.1 e.2 j) j

/-- The mark-as-done block of `_process_job`. -/
def completeOk {π ρ : Type} (fin : Nat) (r : ρ) (j : Job π ρ) : Job π ρ :=
  { j with status := DONE, completed_at := some fin, progress := 1, result := some r }

/-- The mark-as-error block of `_process_job` (`str(e)` into `error`,
`traceback.format_exc()` into `progress_message`). -/
def completeErr {π ρ : Type} (fin : Nat) (e : String) (j : Job π ρ) : Job π ρ :=
  { j with status := ERROR, completed_at := some fin,
           error := some e, progress_message := formatExc e }

/-- Embedding of `JobQueue._process_job` (job already looked up): mark RUNNING and set
`started_at`; look up the handler (raising `No handler registered for job
type: …` when absent); run it, replaying its progress calls; on normal
return mark DONE, set `progress := 1.0` and store the result; on an
exception mark ERROR, store `str(e)` in `error` and the traceback in
`progress_message`, leaving `progress` untouched. -/
def processJob {π ρ : Type} (handlers : String → Option (Handler π ρ))
    (now fin : Nat) (job : Job π ρ) : Job π ρ :=
  let job := markRunning now job
  match handlers job.type with
  | none => completeErr fin ("No handler registered for job type: " ++ job.type) job
  | some h =>
      let run := h job.params
      let job := applyProgress job run.events
      match run.outcome with
      | .ok r => completeOk fin r job
      | .error e => completeErr fin e job

/-- Assoc-list embedding of the `self._jobs` dict (keyed by job id). -/
abbrev JobMap (π ρ : Type) := List (Nat × Job π ρ)

/-- Dict store `self._jobs[job_id] = job` (id assumed fresh, as uuid4). -/
def JobMap.insert {π ρ : Type} (m : JobMap π ρ) (k : Nat) (j : Job π ρ) : JobMap π ρ :=
  m ++ [(k, j)]

/-- Dict delete `del self._jobs[job_id]`. -/
def JobMap.erase {π ρ : Type} (m : JobMap π ρ) (k : Nat) : JobMap π ρ :=
  m.filter (fun p => p.1 ≠ k)

/-- Dict read `self._jobs.get(job_id)`. -/
def JobMap.find {π ρ : Type} (m : JobMap π ρ) (k : Nat) : Option (Job π ρ) :=
  (m.find? (fun p => p.1 = k)).map Prod.snd

/-- Update of the record stored under `k` (mutation of the `Job` object
shared between the dict and the worker). -/
def JobMap.update {π ρ : Type} (m : JobMap π ρ) (k : Nat) (f : Job π ρ → Job π ρ) :
    JobMap π ρ :=
  m.map (fun p => if p.1 = k then (p.1, f p.2) else p)

/-- State of a `JobQueue` instance: configuration, the bounded FIFO
`self._queue` of job ids, the job dict, the running counter, and the
fresh-id source standing for `uuid.uuid4()`. -/
structure QState (π ρ : Type) where
  max_queue_size : Nat
  max_concurrent : Nat
  queue : List Nat
  jobs : JobMap π ρ
  running_count : Nat
  nextId : Nat

/-- Python `queue.Queue(maxsize).put(x, block=False)` raises `Full` exactly when
`maxsize > 0` and the queue already holds `maxsize` items (a `maxsize` of
zero means unbounded in Python). -/
def putFull {π ρ : Type} (s : QState π ρ) : Bool :=
  0 < s.max_queue_size ∧ s.max_queue_size ≤ s.queue.length

/-- Embedding of `JobQueue.enqueue`: create the QUEUED job record, store it in the job
dict, then try a non-blocking put of its id; on `queue.Full`, delete the
record again and surface the failure.  Returns the post state together
with the outcome (`.ok job_id` or the raised `queue.Full` message). -/
def enqueue {π ρ : Type} (s : QState π ρ) (job_type : String) (params : π)
    (now : Nat) : QState π ρ × Except String Nat :=
  let job_id := s.nextId
  let job : Job π ρ :=
    { id := job_id, type := job_type, status := JobStatus.QUEUED,
      created_at := now, params := params }
  let jobs1 := s.jobs.insert job_id job
  if putFull s then
    ({ s with jobs := jobs1.erase job_id }, .error ("Job queue is full - try again later"))
  else
    ({ s with jobs := jobs1, queue := s.queue ++ [job_id], nextId := job_id + 1 },
     .ok job_id)

/-- Embedding of `JobQueue.get_status`: dict lookup, `none` when the id is unknown. -/
def get_status {π ρ : Type} (s : QState π ρ) (job_id : Nat) : Option (Job π ρ) :=
  s.jobs.find job_id

/-- Embedding of `JobQueue.get_queue_depth` (`self._queue.qsize()`). -/
def get_queue_depth {π ρ : Type} (s : QState π ρ) : Nat :=
  s.queue.length

/-- Embedding of `JobQueue.get_running_count`. -/
def get_running_count {π ρ : Type} (s : QState π ρ) : Nat :=
  s.running_count

/-- A call of `self._queue.get(...)` by a worker: pop the FIFO head when present. -/
def dequeue {π ρ : Type} (s : QState π ρ) : Option (Nat × QState π ρ) :=
  match s.queue with
  | [] => none
  | j :: rest => some (j, { s with queue := rest })

/-- Control point of one worker thread inside `_worker_loop` /
`_process_job`, tagged with the job id it is currently handling. -/
inductive WorkerPhase where
  | idle
  | gotJob (j : Nat)
  | acquired (j : Nat)
  | processing (j : Nat)
  | finished (j : Nat)
deriving DecidableEq, Repr

/-- The job id a non-idle worker currently holds. -/
def WorkerPhase.ownedId : WorkerPhase → Option Nat
  | .idle => none
  | .gotJob j => some j
  | .acquired j => some j
  | .processing j => some j
  | .finished j => some j

/-- Whether the worker holds one of the `max_concurrent` slots (it has
incremented `_running_count` and not yet decremented it). -/
def WorkerPhase.holdsSlot : WorkerPhase → Bool
  | .idle => false
  | .gotJob _ => false
  | .acquired _ => true
  | .processing _ => true
  | .finished _ => true

/-- The job id of a worker that is inside the handler-execution part of
`_process_job` (its job has been marked RUNNING). -/
def WorkerPhase.procId : WorkerPhase → Option Nat
  | .processing j => some j
  | _ => none

/-- Engine state: the `JobQueue` instance state plus the control points of
the worker threads started by `start_workers`. -/
structure EState (π ρ : Type) where
  q : QState π ρ
  workers : List WorkerPhase

/-- Status of the job tracked under id `k`, as `get_status` reports it. -/
def statusOf {π ρ : Type} (s : EState π ρ) (k : Nat) : Option JobStatus :=
  (s.q.jobs.find k).map Job.status

/-- Interleaved small-step semantics of the engine: each step is one
atomic action of `enqueue` or of one worker thread in `_worker_loop` /
`_process_job`.  A worker is identified by its position in the worker
list, written as an explicit `l₁ ++ ph :: l₂` decomposition. -/
inductive Step {π ρ : Type} : EState π ρ → EState π ρ → Prop where
  | stepEnqueue (s : EState π ρ) (job_type : String) (params : π) (now : Nat) :
      Step s ⟨(enqueue s.q job_type params now).1, s.workers⟩
  | stepDequeue (s : EState π ρ) (l₁ l₂ : List WorkerPhase) (j : Nat) (rest : List Nat) :
      s.workers = l₁ ++ .idle :: l₂ →
      s.q.queue = j :: rest →
      Step s ⟨{ s.q with queue := rest }, l₁ ++ .gotJob j :: l₂⟩
  | stepAcquire (s : EState π ρ) (l₁ l₂ : List WorkerPhase) (j : Nat) :
      s.workers = l₁ ++ .gotJob j :: l₂ →
      s.q.running_count < s.q.max_concurrent →
      Step s ⟨{ s.q with running_count := s.q.running_count + 1 },
              l₁ ++ .acquired j :: l₂⟩
  | stepMarkRunning (s : EState π ρ) (l₁ l₂ : List WorkerPhase) (j now : Nat) :
      s.workers = l₁ ++ .acquired j :: l₂ →
      (s.q.jobs.find j).isSome →
      Step s ⟨{ s.q with jobs := s.q.jobs.update j (markRunning now) },
              l₁ ++ .processing j :: l₂⟩
  | stepJobMissing (s : EState π ρ) (l₁ l₂ : List WorkerPhase) (j : Nat) :
      s.workers = l₁ ++ .acquired j :: l₂ →
      s.q.jobs.find j = none →
      Step s ⟨s.q, l₁ ++ .finished j :: l₂⟩
  | stepProgress (s : EState π ρ) (l₁ l₂ : List WorkerPhase) (j : Nat)
      (p : Rat) (msg : String) :
      s.workers = l₁ ++ .processing j :: l₂ →
      Step s ⟨{ s.q with jobs := s.q.jobs.update j (reportProgress p msg) },
              l₁ ++ .processing j :: l₂⟩
  | stepFinishOk (s : EState π ρ) (l₁ l₂ : List WorkerPhase) (j fin : Nat) (r : ρ) :
      s.workers = l₁ ++ .processing j :: l₂ →
      Step s ⟨{ s.q with jobs := s.q.jobs.update j (completeOk fin r) },
              l₁ ++ .finished j :: l₂⟩
  | stepFinishErr (s : EState π ρ) (l₁ l₂ : List WorkerPhase) (j fin : Nat) (e : String) :
      s.workers = l₁ ++ .processing j :: l₂ →
      Step s ⟨{ s.q with jobs := s.q.jobs.update j (completeErr fin e) },
              l₁ ++ .finished j :: l₂⟩
  | stepRelease (s : EState π ρ) (l₁ l₂ : List WorkerPhase) (j : Nat) :
      s.workers = l₁ ++ .finished j :: l₂ →
      Step s ⟨{ s.q with running_count := s.q.running_count - 1 },
              l₁ ++ .idle :: l₂⟩

/-- A freshly constructed engine (`JobQueue.__init__` plus
`start_workers`): empty queue, empty job dict, zero running counter, all
workers idle. -/
def validInit {π ρ : Type} (s : EState π ρ) : Prop :=
  s.q.queue = [] ∧ s.q.jobs = [] ∧ s.q.running_count = 0 ∧
    ∀ w ∈ s.workers, w = WorkerPhase.idle

/-- States reachable from a freshly constructed engine. -/
inductive Reachable {π ρ : Type} : EState π ρ → Prop where
  | init (s : EState π ρ) : validInit s → Reachable s
  | step (s s' : EState π ρ) : Reachable s → Step s s' → Reachable s'

/-- Number of tracked jobs whose status is RUNNING. -/
def countRunning {π ρ : Type} (s : EState π ρ) : Nat :=
  (s.q.jobs.filter (fun p => p.2.status = RUNNING)).length

/-- The set of tracked job ids. -/
def JobMap.keys {π ρ : Type} (m : JobMap π ρ) : List Nat :=
  m.map Prod.fst

/-- Inductive invariant of the engine, strong enough for the status
state-machine property and the concurrency bound. -/
structure Inv {π ρ : Type} (s : EState π ρ) : Prop where
  keysLt : ∀ k ∈ s.q.jobs.keys, k < s.q.nextId
  keysNodup : s.q.jobs.keys.Nodup
  slotCount : (s.workers.filter WorkerPhase.holdsSlot).length = s.q.running_count
  runLe : s.q.running_count ≤ s.q.max_concurrent
  queueStatus : ∀ k ∈ s.q.queue, statusOf s k = some JobStatus.QUEUED
  ownNodup : (s.q.queue ++ s.workers.filterMap WorkerPhase.ownedId).Nodup
  workerQueued : ∀ j : Nat, (WorkerPhase.gotJob j ∈ s.workers ∨
      WorkerPhase.acquired j ∈ s.workers) →
    statusOf s j = some JobStatus.QUEUED
  workerRunning : ∀ j : Nat, WorkerPhase.processing j ∈ s.workers →
    statusOf s j = some JobStatus.RUNNING
  workerDone : ∀ j : Nat, WorkerPhase.finished j ∈ s.workers →
    statusOf s j = some JobStatus.DONE ∨ statusOf s j = some JobStatus.ERROR
  runningOwned : ∀ k : Nat, statusOf s k = some JobStatus.RUNNING →
    k ∈ s.workers.filterMap WorkerPhase.procId

/-- The allowed single-step evolutions of the observable status of one job:
unchanged, created as QUEUED, QUEUED→RUNNING, or RUNNING→{DONE,ERROR}.
Every chain of such steps is a prefix of
none, QUEUED, RUNNING, (DONE | ERROR): in particular a terminal status
never changes again and QUEUED never jumps straight to a terminal. -/
def statusStepOk (a b : Option JobStatus) : Prop :=
  a = b ∨
  (a = none ∧ b = some JobStatus.QUEUED) ∨
  (a = some JobStatus.QUEUED ∧ b = some JobStatus.RUNNING) ∨
  (a = some JobStatus.RUNNING ∧ b = some JobStatus.DONE) ∨
  (a = some JobStatus.RUNNING ∧ b = some JobStatus.ERROR)

instance (a b : Option JobStatus) : Decidable (statusStepOk a b) := by
  unfold statusStepOk
  infer_instance

/-- Runs `n` successive `enqueue` calls (keeping whatever each call returns as
the new state, exactly as the mutable `JobQueue` object evolves). -/
def enqueueN {π ρ : Type} (s : QState π ρ) (job_type : String) (params : π)
    (now : Nat) : Nat → QState π ρ
  | 0 => s
  | n + 1 => (enqueue (enqueueN s job_type params now n) job_type params now).1

/-- The `_worker_loop` of one worker, draining a list of dequeued job ids
in order: each id is looked up and processed by `_process_job`, and the
loop always continues to the next id. -/
def runJobs {π ρ : Type} (handlers : String → Option (Handler π ρ))
    (now fin : Nat) (m : JobMap π ρ) (ids : List Nat) : JobMap π ρ :=
  ids.foldl (fun acc i => acc.update i (processJob handlers now fin)) m

/-- Model of a Python `Dict[str, str]` payload. -/
abbrev PyDict := List (String × String)

/-- The `"echo"` scenario handler: reports `(0.5, "halfway")`, then
returns its input params unchanged. -/
def echoHandler : Handler PyDict PyDict := fun params =>
  { events := [((1:Rat)/2, "halfway")], outcome := Except.ok params }

/-- The `"boom"` scenario handler: reports `(0.4, "working")`, then
raises with message `"boom stage failed"`. -/
def boomHandler : Handler PyDict PyDict := fun _ =>
  { events := [((2:Rat)/5, "working")], outcome := Except.error ("boom stage failed") }

/-- A handler that reports `(0.4, "working")` and then raises a bare
`Exception()` whose `str` is the empty string. -/
def emptyMsgHandler : Handler PyDict PyDict := fun _ =>
  { events := [((2:Rat)/5, "working")], outcome := Except.error ("") }

/-- A registry holding the three scenario handlers. -/
def testHandlers : String → Option (Handler PyDict PyDict) := fun t =>
  if t = "echo" then some echoHandler
  else if t = "boom" then some boomHandler
  else if t = "boom-empty" then some emptyMsgHandler
  else none

/-- A freshly enqueued job record. -/
def mkJob (i : Nat) (t : String) (ps : PyDict) : Job PyDict PyDict :=
  { id := i, type := t, status := JobStatus.QUEUED, created_at := 0, params := ps }

/-- The two-job map of the C5 scenario: an unregistered-type job followed
by a well-registered `"echo"` job. -/
def m5 : JobMap PyDict PyDict :=
  [(1, mkJob 1 ("no-such-type") []), (2, mkJob 2 ("echo") [("k", "v")])]

/-- Freshly constructed engine (capacity 2, one worker). -/
def E0 : EState PyDict PyDict :=
  ⟨{ max_queue_size := 2, max_concurrent := 1, queue := [], jobs := [],
     running_count := 0, nextId := 0 }, [WorkerPhase.idle]⟩

/-- The engine after one `enqueue` step from `E0`. -/
def E1 : EState PyDict PyDict :=
  ⟨(enqueue E0.q ("process_document") [] 0).1, E0.workers⟩

/-- Freshly constructed queue of capacity 2 (C2 scenario). -/
def Q0 : QState PyDict PyDict :=
  { max_queue_size := 2, max_concurrent := 3, queue := [], jobs := [],
    running_count := 0, nextId := 0 }

/-- A queue of capacity 1 already holding one entry (C10 scenario). -/
def QF : QState PyDict PyDict :=
  { max_queue_size := 1, max_concurrent := 3, queue := [0],
    jobs := [(0, mkJob 0 ("process_document") [])], running_count := 0, nextId := 1 }

end JobQueueModel

namespace DocPipeline

open JobQueueModel

/-- Environment of `AsyncDocumentProcessor`: the SHA-256 digest function
used by `compute_file_hash`, the text-extraction collaborator, whether a
Supabase client is configured, and whether a Graph download request
succeeds for a given OneDrive path. -/
structure PEnv where
  hash : List Nat → String
  extractText : List Nat → Except String String
  hasDb : Bool
  httpOk : String → Bool

/-- Local filesystem contents: path to raw bytes. -/
abbrev FileSys := List (String × List Nat)

def fsFind (fs : FileSys) (p : String) : Option (List Nat) :=
  (fs.find? (fun f => f.1 = p)).map Prod.snd

/-- File creation, `open(path, "wb").write(bytes)`. -/
def fsWrite (fs : FileSys) (p : String) (bytes : List Nat) : FileSys :=
  fs ++ [(p, bytes)]

/-- File deletion, `os.remove(path)`. -/
def fsRemove (fs : FileSys) (p : String) : FileSys :=
  fs.filter (fun f => f.1 ≠ p)

/-- A row of the `documents` table as inserted by `process_document`. -/
structure DocRecord where
  filename : String
  file_hash : String
  file_size : Nat
  mime_type : String
  text_content : String
  char_count : Nat
  status : String
deriving DecidableEq, Repr

/-- The dict shape `process_document` expects from entity extraction. -/
structure EntityResult where
  entities : List (String × String)
  people : List String
  organizations : List String
  dates : List String
  locations : List String
deriving DecidableEq, Repr

/-- A row of the `document_metadata` table. -/
structure MetaRecord where
  document_id : Nat
  entities : List (String × String)
  people : List String
  organizations : List String
  dates : List String
  locations : List String
deriving DecidableEq, Repr

/-- The persistent store behind the Supabase client: the `documents`
table (row id to record; `nextDocId` models id assignment on insert) and
the `document_metadata` table. -/
structure Store where
  documents : List (Nat × DocRecord)
  document_metadata : List MetaRecord
  nextDocId : Nat
deriving DecidableEq, Repr

/-- Embedding of `AsyncDocumentProcessor.check_duplicate`: `False` when no Supabase
client is configured, otherwise whether some `documents` row carries the
same `file_hash`. -/
def check_duplicate (env : PEnv) (store : Store) (file_hash : String) : Bool :=
  if !env.hasDb then false
  else store.documents.any (fun d => d.2.file_hash = file_hash)

/-- A Python value that is either a string or a bool; needed because
`sync_onedrive_folder` binds the *boolean* return value of
`OneDriveManager.download_file(onedrive_path, local_path) -> bool` to its
`local_path` variable and then passes it on as a file path. -/
inductive PyPath where
  | str (s : String)
  | bool (b : Bool)
deriving DecidableEq, Repr

/-- Embedding of `AsyncDocumentProcessor.compute_file_hash`: open the file and digest
its bytes; `open` raises on a missing path and raises `TypeError` when
the supposed path is a bool. -/
def compute_file_hash (env : PEnv) (fs : FileSys) (p : PyPath) :
    Except String String :=
  match p with
  | .bool _ => .error ("TypeError: file path must be a string, got bool")
  | .str path =>
    match fsFind fs path with
    | none => .error ("FileNotFoundError: " ++ path)
    | some bytes => .ok (env.hash bytes)

/-- The attribute access `self.entity_manager.extract_entities` performed
at step 3 of `process_document`: `EntityManager` (entity_manager.py)
defines only `list_entities` and `get_statistics`, so the lookup raises
`AttributeError` whenever this stage runs. -/
def extract_entities_em (_text : String) : Except String EntityResult :=
  Except.error ("AttributeError: EntityManager object has no attribute extract_entities")

/-- Modelled from the spec: the `text_extractor.TextExtractor` module is
not part of the sources; per the spec it is a text-extraction service
`(bytes, mime_hint) -> text` that may itself raise.  `extract(file_path)`
reads the file and extracts its text. -/
def extractor_extract (env : PEnv) (fs : FileSys) (path : String) :
    Except String String :=
  match fsFind fs path with
  | none => Except.error ("FileNotFoundError: " ++ path)
  | some bytes => env.extractText bytes

/-- The guard `not text_content or len(text_content.strip()) == 0` of
`process_document`: true exactly when the text is empty or consists of
whitespace only. -/
def isBlank (s : String) : Bool :=
  s.data.all Char.isWhitespace

/-- The `params` dict of a `process_document` job. -/
structure DocParams where
  file_path : String
  filename : String
  file_size : Nat
  mime_type : String
deriving DecidableEq, Repr

/-- The result dict returned by `process_document` (either the duplicate
short-circuit shape or the success shape). -/
structure PResult where
  status : String
  file_hash : String
  document_id : Option String := none
  message : Option String := none
  text_length : Option Nat := none
  entity_count : Option Nat := none
deriving DecidableEq, Repr

/-- One run of `process_document`: its `update_progress` calls, its
outcome (returned result dict or raised exception message), and the
post-call state of the persistent store. -/
structure PipeRun where
  events : List (Rat × String)
  outcome : Except String PResult
  store : Store

/-- Embedding of `AsyncDocumentProcessor.process_document`: hash and dedup check
(short-circuiting with a `"duplicate"` result), text extraction (raising
on empty or whitespace-only text), entity extraction (an attribute
lookup that raises, see `extract_entities_em`), embedding generation
(skipped in the source), persistence, and the final `"success"` result.
Stages after entity extraction are kept for structural fidelity although
the entity stage never returns normally. -/
def process_document (env : PEnv) (fs : FileSys) (store : Store)
    (p : DocParams) : PipeRun :=
  let ev := [((1:Rat)/10, "Computing file hash...")]
  match compute_file_hash env fs (.str p.file_path) with
  | .error e => ⟨ev, .error e, store⟩
  | .ok file_hash =>
    if check_duplicate env store file_hash then
      ⟨ev ++ [((1:Rat), "Document already exists (duplicate)")],
       .ok { status := "duplicate", file_hash := file_hash,
             message := some ("Document with this hash already exists") },
       store⟩
    else
      let ev := ev ++ [((3:Rat)/10, "Extracting text...")]
      match extractor_extract env fs p.file_path with
      | .error e => ⟨ev, .error e, store⟩
      | .ok text_content =>
        if isBlank text_content then
          ⟨ev, .error ("Failed to extract text from document"), store⟩
        else
          let ev := ev ++ [((3:Rat)/5, "Extracting entities...")]
          match extract_entities_em text_content with
          | .error e => ⟨ev, .error e, store⟩
          | .ok entities =>
            let ev := ev ++ [((4:Rat)/5, "Generating embeddings..."),
                             ((9:Rat)/10, "Storing in database...")]
            if env.hasDb then
              let doc : DocRecord :=
                { filename := p.filename, file_hash := file_hash,
                  file_size := p.file_size, mime_type := p.mime_type,
                  text_content := text_content,
                  char_count := text_content.length, status := "processed" }
              let document_id := store.nextDocId
              let store1 : Store :=
                { documents := store.documents ++ [(document_id, doc)],
                  document_metadata := store.document_metadata ++
                    [{ document_id := document_id,
                       entities := entities.entities,
                       people := entities.people,
                       organizations := entities.organizations,
                       dates := entities.dates,
                       locations := entities.locations }],
                  nextDocId := document_id + 1 }
              ⟨ev ++ [((1:Rat), "Processing complete")],
               .ok { status := "success", file_hash := file_hash,
                     document_id := some (toString document_id),
                     text_length := some text_content.length,
                     entity_count := some entities.entities.length },
               store1⟩
            else
              ⟨ev ++ [((1:Rat), "Processing complete")],
               .ok { status := "success", file_hash := file_hash,
                     document_id := some ("local_" ++ file_hash.take 8),
                     text_length := some text_content.length,
                     entity_count := some entities.entities.length },
               store⟩

/-- A OneDrive directory entry as consumed by `sync_onedrive_folder`
(plus the raw content of the file, which a download request returns). -/
structure ODFile where
  id : String
  name : String
  size : Nat
  mimeType : String
  content : List Nat
deriving Repr

/-- State threaded through the `sync_onedrive_folder` per-file loop. -/
structure SyncState where
  fs : FileSys
  store : Store
  processed : Nat
  skipped : Nat
  errors : Nat
deriving Repr

/-- Embedding of `OneDriveManager.download_file(onedrive_path, local_path) -> bool`:
on a 200 response it writes the body to `local_path` and returns `True`,
otherwise it returns `False` without writing. -/
def download_file (env : PEnv) (fs : FileSys) (onedrive_path : String)
    (local_path : String) (content : List Nat) : FileSys × Bool :=
  if env.httpOk onedrive_path then (fsWrite fs local_path content, true)
  else (fs, false)

/-- One iteration of the per-file try-block of `sync_onedrive_folder`:
`local_path = onedrive.download_file(file_id, file_name)` binds the
*boolean* return of `download_file` (which writes the bytes to the file
named `file_name`); the following `compute_file_hash(local_path)` then
raises, taking the `except` branch, which increments `error_count` and
continues without any cleanup.  The duplicate-skip and post-process
branches (which do call `os.remove`) are kept for structural fidelity. -/
def syncFile (env : PEnv) (st : SyncState) (f : ODFile) : SyncState :=
  let dl := download_file env st.fs f.id f.name f.content
  let fs1 := dl.1
  let local_path : PyPath := PyPath.bool dl.2
  match compute_file_hash env fs1 local_path with
  | .error _ => { st with fs := fs1, errors := st.errors + 1 }
  | .ok file_hash =>
    match local_path with
    | .bool _ => { st with fs := fs1, errors := st.errors + 1 }
    | .str lp =>
      if check_duplicate env st.store file_hash then
        { st with fs := fsRemove fs1 lp, skipped := st.skipped + 1 }
      else
        let r := process_document env fs1 st.store
          { file_path := lp, filename := f.name, file_size := f.size,
            mime_type := f.mimeType }
        match r.outcome with
        | .error _ => { st with fs := fs1, store := r.store, errors := st.errors + 1 }
        | .ok res =>
          if res.status = "success" then
            { st with fs := fsRemove fs1 lp, store := r.store, processed := st.processed + 1 }
          else
            { st with fs := fsRemove fs1 lp, store := r.store, skipped := st.skipped + 1 }

/-- The per-file loop of `AsyncDocumentProcessor.sync_onedrive_folder`. -/
def sync_onedrive_folder (env : PEnv) (files : List ODFile) (st : SyncState) :
    SyncState :=
  files.foldl (syncFile env) st

/-- Concrete environment for evaluating the pipeline: a configured store,
a digest that renders the bytes, an extractor that succeeds with
non-blank text, and working downloads. -/
def testDocEnv : PEnv :=
  { hash := fun bytes => "sha256:" ++ toString bytes,
    extractText := fun _ => Except.ok ("hello world"),
    hasDb := true,
    httpOk := fun _ => true }

def emptyStore : Store :=
  { documents := [], document_metadata := [], nextDocId := 1 }

def testDoc : DocParams :=
  { file_path := "/tmp/uploads/u1_a.txt", filename := "a.txt",
    file_size := 3, mime_type := "text/plain" }

def testFs : FileSys := [("/tmp/uploads/u1_a.txt", [1, 2, 3])]

def odFileA : ODFile :=
  { id := "fid1", name := "a.txt", size := 3, mimeType := "text/plain",
    content := [1, 2, 3] }

def sync0 : SyncState :=
  { fs := [], store := emptyStore, processed := 0, skipped := 0, errors := 0 }

end DocPipeline

namespace JobQueueModel

open JobStatus

theorem JobMap.mem_keys_of_find_eq_some {π ρ : Type} {m : JobMap π ρ} {k : Nat}
    {j : Job π ρ} (h : m.find k = some j) : k ∈ m.keys := by
  induction m with
  | nil => simp [JobMap.find] at h
  | cons a m ih =>
    by_cases hk : a.1 = k
    · simp [JobMap.keys, hk]
    · simp only [JobMap.find, List.find?] at h ih
      rw [decide_eq_false hk] at h
      simpa [JobMap.keys, hk] using Or.inr (ih h)

theorem JobMap.find_eq_none_of_not_mem {π ρ : Type} {m : JobMap π ρ} {k : Nat}
    (h : k ∉ m.keys) : m.find k = none := by
  cases hf : m.find k with
  | none => rfl
  | some j => exact absurd (JobMap.mem_keys_of_find_eq_some hf) h

theorem JobMap.find_append {π ρ : Type} (m₁ m₂ : JobMap π ρ) (k : Nat) :
    JobMap.find (m₁ ++ m₂) k =
      (JobMap.find m₁ k).orElse (fun _ => JobMap.find m₂ k) := by
  induction m₁ with
  | nil => simp [JobMap.find]
  | cons a m ih =>
    by_cases hk : a.1 = k
    · simp [JobMap.find, List.find?, hk]
    · simp only [JobMap.find, List.cons_append, List.find?, decide_eq_false hk] at ih ⊢
      exact ih

theorem JobMap.find_insert_self {π ρ : Type} (m : JobMap π ρ) (k : Nat) (j : Job π ρ)
    (h : k ∉ m.keys) : (m.insert k j).find k = some j := by
  rw [JobMap.insert, JobMap.find_append, JobMap.find_eq_none_of_not_mem h]
  simp [JobMap.find]

theorem JobMap.find_insert_ne {π ρ : Type} (m : JobMap π ρ) (k : Nat) (j : Job π ρ)
    (k' : Nat) (h : k' ≠ k) : (m.insert k j).find k' = m.find k' := by
  rw [JobMap.insert, JobMap.find_append]
  have hkk : ¬ k = k' := fun he => h he.symm
  have : JobMap.find [(k, j)] k' = none := by
    simp [JobMap.find, List.find?, hkk]
  rw [this]
  cases m.find k' <;> rfl

theorem JobMap.erase_insert_cancel {π ρ : Type} (m : JobMap π ρ) (k : Nat)
    (j : Job π ρ) (h : k ∉ m.keys) : (m.insert k j).erase k = m := by
  rw [JobMap.insert, JobMap.erase, List.filter_append]
  have h1 : m.filter (fun p => p.1 ≠ k) = m := by
    apply List.filter_eq_self.mpr
    intro p hp
    have hpk : p.1 ≠ k := by
      intro he
      exact h (he ▸ List.mem_map_of_mem Prod.fst hp)
    simp [hpk]
  have h2 : List.filter (fun p => p.1 ≠ k) [(k, j)] = [] := by
    simp [List.filter]
  rw [h1, h2, List.append_nil]

theorem JobMap.keys_insert {π ρ : Type} (m : JobMap π ρ) (k : Nat) (j : Job π ρ) :
    (m.insert k j).keys = m.keys ++ [k] := by
  simp [JobMap.insert, JobMap.keys]

theorem JobMap.keys_update {π ρ : Type} (m : JobMap π ρ) (k : Nat)
    (f : Job π ρ → Job π ρ) : (m.update k f).keys = m.keys := by
  induction m with
  | nil => rfl
  | cons a m ih =>
    by_cases hk : a.1 = k <;>
      simp_all [JobMap.update, JobMap.keys]

theorem JobMap.find_update_self {π ρ : Type} (m : JobMap π ρ) (k : Nat)
    (f : Job π ρ → Job π ρ) : (m.update k f).find k = (m.find k).map f := by
  induction m with
  | nil => rfl
  | cons a m ih =>
    by_cases hk : a.1 = k
    · simp [JobMap.update, JobMap.find, List.find?, hk]
    · simp only [JobMap.update, JobMap.find, List.map_cons, if_neg hk, List.find?,
        decide_eq_false hk] at ih ⊢
      exact ih

theorem JobMap.find_update_ne {π ρ : Type} (m : JobMap π ρ) (k : Nat)
    (f : Job π ρ → Job π ρ) (k' : Nat) (h : k' ≠ k) :
    (m.update k f).find k' = m.find k' := by
  induction m with
  | nil => rfl
  | cons a m ih =>
    by_cases hk : a.1 = k
    · have : ¬ a.1 = k' := fun he => h (he ▸ hk)
      simp only [JobMap.update, JobMap.find, List.map_cons, if_pos hk, List.find?,
        decide_eq_false this] at ih ⊢
      exact ih
    · by_cases hk' : a.1 = k'
      · simp [JobMap.update, JobMap.find, List.find?, hk, hk', h]
      · simp only [JobMap.update, JobMap.find, List.map_cons, if_neg hk, List.find?,
          decide_eq_false hk'] at ih ⊢
        exact ih

theorem ownedId_cases {w : WorkerPhase} {k : Nat} (h : w.ownedId = some k) :
    w = .gotJob k ∨ w = .acquired k ∨ w = .processing k ∨ w = .finished k := by
  cases w <;> simp [WorkerPhase.ownedId] at h <;> simp [h]

theorem mem_keys_of_statusOf {π ρ : Type} {s : EState π ρ} {k : Nat}
    {st : JobStatus} (h : statusOf s k = some st) : k ∈ s.q.jobs.keys := by
  unfold statusOf at h
  cases hf : s.q.jobs.find k with
  | none => rw [hf] at h; exact absurd h (by simp)
  | some j => exact JobMap.mem_keys_of_find_eq_some hf

/-- Under the invariant, every id in the queue or owned by a worker is a
tracked job id (hence `< nextId`). -/
theorem mem_keys_of_mem_queue_owned {π ρ : Type} {s : EState π ρ} (hs : Inv s)
    {k : Nat} (h : k ∈ s.q.queue ++ s.workers.filterMap WorkerPhase.ownedId) :
    k ∈ s.q.jobs.keys := by
  rcases List.mem_append.mp h with hq | hw
  · exact mem_keys_of_statusOf (hs.queueStatus k hq)
  · rcases List.mem_filterMap.mp hw with ⟨w, hwmem, hwk⟩
    rcases ownedId_cases hwk with h1 | h1 | h1 | h1
    · exact mem_keys_of_statusOf (hs.workerQueued k (Or.inl (h1 ▸ hwmem)))
    · exact mem_keys_of_statusOf (hs.workerQueued k (Or.inr (h1 ▸ hwmem)))
    · exact mem_keys_of_statusOf (hs.workerRunning k (h1 ▸ hwmem))
    · rcases hs.workerDone k (h1 ▸ hwmem) with h2 | h2
      · exact mem_keys_of_statusOf h2
      · exact mem_keys_of_statusOf h2

theorem owned_split (l₁ l₂ : List WorkerPhase) (ph : WorkerPhase) {j : Nat}
    (hj : ph.ownedId = some j) :
    (l₁ ++ ph :: l₂).filterMap WorkerPhase.ownedId =
      l₁.filterMap WorkerPhase.ownedId ++ j :: l₂.filterMap WorkerPhase.ownedId := by
  simp [List.filterMap_append, List.filterMap_cons, hj]

theorem owned_skip (l₁ l₂ : List WorkerPhase) (ph : WorkerPhase)
    (hj : ph.ownedId = none) :
    (l₁ ++ ph :: l₂).filterMap WorkerPhase.ownedId =
      l₁.filterMap WorkerPhase.ownedId ++ l₂.filterMap WorkerPhase.ownedId := by
  simp [List.filterMap_append, List.filterMap_cons, hj]

/-- Splitting the ownership no-duplication invariant at one worker that
owns job `j`: `j` occurs nowhere else, and the rest is duplicate-free. -/
theorem own_decomp {π ρ : Type} {s : EState π ρ} (hs : Inv s)
    {l₁ l₂ : List WorkerPhase} {ph : WorkerPhase} {j : Nat}
    (hw : s.workers = l₁ ++ ph :: l₂) (hj : ph.ownedId = some j) :
    j ∉ s.q.queue ++ (l₁.filterMap WorkerPhase.ownedId ++ l₂.filterMap WorkerPhase.ownedId) ∧
    (s.q.queue ++ (l₁.filterMap WorkerPhase.ownedId ++ l₂.filterMap WorkerPhase.ownedId)).Nodup := by
  have hnd := hs.ownNodup
  rw [hw, owned_split l₁ l₂ ph hj] at hnd
  have p1 : List.Perm
      (l₁.filterMap WorkerPhase.ownedId ++ j :: l₂.filterMap WorkerPhase.ownedId)
      (j :: (l₁.filterMap WorkerPhase.ownedId ++ l₂.filterMap WorkerPhase.ownedId)) :=
    List.perm_middle
  have p2 := p1.append_left s.q.queue
  have p3 : List.Perm
      (s.q.queue ++ j :: (l₁.filterMap WorkerPhase.ownedId ++ l₂.filterMap WorkerPhase.ownedId))
      (j :: (s.q.queue ++ (l₁.filterMap WorkerPhase.ownedId ++ l₂.filterMap WorkerPhase.ownedId))) :=
    List.perm_middle
  have hnd2 := ((p2.trans p3).nodup_iff).mp hnd
  exact ⟨(List.nodup_cons.mp hnd2).1, (List.nodup_cons.mp hnd2).2⟩

theorem inv_release {π ρ : Type} {s : EState π ρ} (hs : Inv s)
    {l₁ l₂ : List WorkerPhase} {j : Nat}
    (hw : s.workers = l₁ ++ .finished j :: l₂) :
    Inv ⟨{ s.q with running_count := s.q.running_count - 1 }, l₁ ++ .idle :: l₂⟩ := by
  obtain ⟨hjq, hnd⟩ := own_decomp hs hw rfl
  have hmem : ∀ w : WorkerPhase, w ∈ l₁ ∨ w ∈ l₂ → w ∈ s.workers := by
    intro w h; rw [hw]; rcases h with h | h <;> simp [h]
  refine ⟨hs.keysLt, hs.keysNodup, ?_, le_trans (Nat.sub_le _ _) hs.runLe,
    hs.queueStatus, ?_, ?_, ?_, ?_, ?_⟩
  · have hslot := hs.slotCount
    rw [hw] at hslot
    simp [List.filter_append, List.filter_cons, WorkerPhase.holdsSlot] at hslot ⊢
    omega
  · rw [owned_skip l₁ l₂ .idle rfl]
    exact hnd
  · intro j' h
    simp only [List.mem_append, List.mem_cons] at h
    refine hs.workerQueued j' ?_
    rcases h with (h | h | h) | (h | h | h) <;> first
      | exact Or.inl (hmem _ (Or.inl h))
      | exact Or.inl (hmem _ (Or.inr h))
      | exact Or.inr (hmem _ (Or.inl h))
      | exact Or.inr (hmem _ (Or.inr h))
      | cases h
  · intro j' h
    simp only [List.mem_append, List.mem_cons] at h
    refine hs.workerRunning j' ?_
    rcases h with h | h | h
    · exact hmem _ (Or.inl h)
    · cases h
    · exact hmem _ (Or.inr h)
  · intro j' h
    simp only [List.mem_append, List.mem_cons] at h
    refine hs.workerDone j' ?_
    rcases h with h | h | h
    · exact hmem _ (Or.inl h)
    · cases h
    · exact hmem _ (Or.inr h)
  · intro k hk
    have hold := hs.runningOwned k hk
    rw [hw] at hold
    simp only [List.filterMap_append, List.filterMap_cons, WorkerPhase.procId] at hold ⊢
    exact hold

theorem inv_acquire {π ρ : Type} {s : EState π ρ} (hs : Inv s)
    {l₁ l₂ : List WorkerPhase} {j : Nat}
    (hw : s.workers = l₁ ++ .gotJob j :: l₂)
    (hlt : s.q.running_count < s.q.max_concurrent) :
    Inv ⟨{ s.q with running_count := s.q.running_count + 1 },
         l₁ ++ .acquired j :: l₂⟩ := by
  have hmem : ∀ w : WorkerPhase, w ∈ l₁ ∨ w ∈ l₂ → w ∈ s.workers := by
    intro w h; rw [hw]; rcases h with h | h <;> simp [h]
  have hself : WorkerPhase.gotJob j ∈ s.workers := by rw [hw]; simp
  refine ⟨hs.keysLt, hs.keysNodup, ?_, hlt, hs.queueStatus, ?_, ?_, ?_, ?_, ?_⟩
  · have hslot := hs.slotCount
    rw [hw] at hslot
    simp [List.filter_append, List.filter_cons, WorkerPhase.holdsSlot] at hslot ⊢
    omega
  · have hnd := hs.ownNodup
    rw [hw, owned_split l₁ l₂ (.gotJob j) rfl] at hnd
    rw [owned_split l₁ l₂ (.acquired j) rfl]
    exact hnd
  · intro j' h
    simp only [List.mem_append, List.mem_cons] at h
    rcases h with (h | h | h) | (h | h | h)
    · exact hs.workerQueued j' (Or.inl (hmem _ (Or.inl h)))
    · cases h
    · exact hs.workerQueued j' (Or.inl (hmem _ (Or.inr h)))
    · exact hs.workerQueued j' (Or.inr (hmem _ (Or.inl h)))
    · injection h with hinj
      subst hinj
      exact hs.workerQueued j' (Or.inl hself)
    · exact hs.workerQueued j' (Or.inr (hmem _ (Or.inr h)))
  · intro j' h
    simp only [List.mem_append, List.mem_cons] at h
    refine hs.workerRunning j' ?_
    rcases h with h | h | h
    · exact hmem _ (Or.inl h)
    · cases h
    · exact hmem _ (Or.inr h)
  · intro j' h
    simp only [List.mem_append, List.mem_cons] at h
    refine hs.workerDone j' ?_
    rcases h with h | h | h
    · exact hmem _ (Or.inl h)
    · cases h
    · exact hmem _ (Or.inr h)
  · intro k hk
    have hold := hs.runningOwned k hk
    rw [hw] at hold
    simp only [List.filterMap_append, List.filterMap_cons, WorkerPhase.procId] at hold ⊢
    exact hold

theorem inv_dequeue {π ρ : Type} {s : EState π ρ} (hs : Inv s)
    {l₁ l₂ : List WorkerPhase} {j : Nat} {rest : List Nat}
    (hw : s.workers = l₁ ++ .idle :: l₂)
    (hq : s.q.queue = j :: rest) :
    Inv ⟨{ s.q with queue := rest }, l₁ ++ .gotJob j :: l₂⟩ := by
  have hmem : ∀ w : WorkerPhase, w ∈ l₁ ∨ w ∈ l₂ → w ∈ s.workers := by
    intro w h; rw [hw]; rcases h with h | h <;> simp [h]
  have hjq : statusOf s j = some JobStatus.QUEUED :=
    hs.queueStatus j (by rw [hq]; simp)
  refine ⟨hs.keysLt, hs.keysNodup, ?_, hs.runLe, ?_, ?_, ?_, ?_, ?_, ?_⟩
  · have hslot := hs.slotCount
    rw [hw] at hslot
    simp [List.filter_append, List.filter_cons, WorkerPhase.holdsSlot] at hslot ⊢
    omega
  · intro k hk
    exact hs.queueStatus k (by rw [hq]; simp [hk])
  · have hnd := hs.ownNodup
    rw [hw, hq, owned_skip l₁ l₂ .idle rfl] at hnd
    rw [owned_split l₁ l₂ (.gotJob j) rfl]
    have p1 : List.Perm
        (rest ++ (l₁.filterMap WorkerPhase.ownedId ++ j :: l₂.filterMap WorkerPhase.ownedId))
        (rest ++ (j :: (l₁.filterMap WorkerPhase.ownedId ++ l₂.filterMap WorkerPhase.ownedId))) :=
      List.Perm.append_left rest List.perm_middle
    have p2 : List.Perm
        (rest ++ (j :: (l₁.filterMap WorkerPhase.ownedId ++ l₂.filterMap WorkerPhase.ownedId)))
        (j :: (rest ++ (l₁.filterMap WorkerPhase.ownedId ++ l₂.filterMap WorkerPhase.ownedId))) :=
      List.perm_middle
    have hnd' : (j :: (rest ++ (l₁.filterMap WorkerPhase.ownedId ++
        l₂.filterMap WorkerPhase.ownedId))).Nodup := by
      have : (j :: rest ++ (l₁.filterMap WorkerPhase.ownedId ++
          l₂.filterMap WorkerPhase.ownedId)) =
          j :: (rest ++ (l₁.filterMap WorkerPhase.ownedId ++
          l₂.filterMap WorkerPhase.ownedId)) := by simp
      rw [this] at hnd
      exact hnd
    exact ((p1.trans p2).nodup_iff).mpr hnd'
  · intro j' h
    simp only [List.mem_append, List.mem_cons] at h
    rcases h with (h | h | h) | (h | h | h)
    · exact hs.workerQueued j' (Or.inl (hmem _ (Or.inl h)))
    · injection h with hinj
      subst hinj
      exact hjq
    · exact hs.workerQueued j' (Or.inl (hmem _ (Or.inr h)))
    · exact hs.workerQueued j' (Or.inr (hmem _ (Or.inl h)))
    · cases h
    · exact hs.workerQueued j' (Or.inr (hmem _ (Or.inr h)))
  · intro j' h
    simp only [List.mem_append, List.mem_cons] at h
    refine hs.workerRunning j' ?_
    rcases h with h | h | h
    · exact hmem _ (Or.inl h)
    · cases h
    · exact hmem _ (Or.inr h)
  · intro j' h
    simp only [List.mem_append, List.mem_cons] at h
    refine hs.workerDone j' ?_
    rcases h with h | h | h
    · exact hmem _ (Or.inl h)
    · cases h
    · exact hmem _ (Or.inr h)
  · intro k hk
    have hold := hs.runningOwned k hk
    rw [hw] at hold
    simp only [List.filterMap_append, List.filterMap_cons, WorkerPhase.procId] at hold ⊢
    exact hold

theorem statusOf_update {π ρ : Type} (s : EState π ρ) (W : List WorkerPhase) (j : Nat)
    (f : Job π ρ → Job π ρ) (k : Nat) :
    statusOf ⟨{ s.q with jobs := s.q.jobs.update j f }, W⟩ k =
      if k = j then (s.q.jobs.find j).map (fun jb => (f jb).status)
      else statusOf s k := by
  by_cases hk : k = j
  · subst hk
    simp only [statusOf, JobMap.find_update_self, Option.map_map, if_pos]
    rfl
  · simp [hk, statusOf, JobMap.find_update_ne _ _ _ _ hk]

theorem find_isSome_of_statusOf {π ρ : Type} {s : EState π ρ} {k : Nat}
    {st : JobStatus} (h : statusOf s k = some st) :
    ∃ jb : Job π ρ, s.q.jobs.find k = some jb ∧ jb.status = st := by
  unfold statusOf at h
  cases hf : s.q.jobs.find k with
  | none => rw [hf] at h; exact absurd h (by simp)
  | some jb =>
    rw [hf] at h
    exact ⟨jb, rfl, by simpa using h⟩

theorem inv_markRunning {π ρ : Type} {s : EState π ρ} (hs : Inv s)
    {l₁ l₂ : List WorkerPhase} {j now : Nat}
    (hw : s.workers = l₁ ++ .acquired j :: l₂) :
    Inv ⟨{ s.q with jobs := s.q.jobs.update j (markRunning now) },
         l₁ ++ .processing j :: l₂⟩ := by
  obtain ⟨hnotin, hnd⟩ := own_decomp hs hw rfl
  have hmem : ∀ w : WorkerPhase, w ∈ l₁ ∨ w ∈ l₂ → w ∈ s.workers := by
    intro w h; rw [hw]; rcases h with h | h <;> simp [h]
  have hself : WorkerPhase.acquired j ∈ s.workers := by rw [hw]; simp
  have hjq : statusOf s j = some JobStatus.QUEUED := hs.workerQueued j (Or.inr hself)
  obtain ⟨jb, hjb, hjbst⟩ := find_isSome_of_statusOf hjq
  have howned : ∀ w : WorkerPhase, (w ∈ l₁ ∨ w ∈ l₂) → w.ownedId = some j → False := by
    intro w hmw hwo
    apply hnotin
    rcases hmw with h | h
    · exact List.mem_append.mpr (Or.inr (List.mem_append.mpr
        (Or.inl (List.mem_filterMap.mpr ⟨w, h, hwo⟩))))
    · exact List.mem_append.mpr (Or.inr (List.mem_append.mpr
        (Or.inr (List.mem_filterMap.mpr ⟨w, h, hwo⟩))))
  refine ⟨?_, ?_, ?_, hs.runLe, ?_, ?_, ?_, ?_, ?_, ?_⟩
  · rw [JobMap.keys_update]; exact hs.keysLt
  · rw [JobMap.keys_update]; exact hs.keysNodup
  · have hslot := hs.slotCount
    rw [hw] at hslot
    simp [List.filter_append, List.filter_cons, WorkerPhase.holdsSlot] at hslot ⊢
    omega
  · intro k hk
    rw [statusOf_update]
    have : k ≠ j := by
      intro he
      exact hnotin (List.mem_append.mpr (Or.inl (he ▸ hk)))
    rw [if_neg this]
    exact hs.queueStatus k hk
  · have hnd0 := hs.ownNodup
    rw [hw, owned_split l₁ l₂ (.acquired j) rfl] at hnd0
    rw [owned_split l₁ l₂ (.processing j) rfl]
    exact hnd0
  · intro j' h
    simp only [List.mem_append, List.mem_cons] at h
    have hj' : WorkerPhase.gotJob j' ∈ s.workers ∨ WorkerPhase.acquired j' ∈ s.workers := by
      rcases h with (h | h | h) | (h | h | h)
      · exact Or.inl (hmem _ (Or.inl h))
      · cases h
      · exact Or.inl (hmem _ (Or.inr h))
      · exact Or.inr (hmem _ (Or.inl h))
      · cases h
      · exact Or.inr (hmem _ (Or.inr h))
    have hold := hs.workerQueued j' hj'
    rw [statusOf_update]
    have hne : j' ≠ j := by
      intro he
      subst he
      rcases h with (h | h | h) | (h | h | h)
      · exact howned _ (Or.inl h) rfl
      · cases h
      · exact howned _ (Or.inr h) rfl
      · exact howned _ (Or.inl h) rfl
      · cases h
      · exact howned _ (Or.inr h) rfl
    rw [if_neg hne]
    exact hold
  · intro j' h
    simp only [List.mem_append, List.mem_cons] at h
    rw [statusOf_update]
    rcases h with h | h | h
    · have hold := hs.workerRunning j' (hmem _ (Or.inl h))
      have hne : j' ≠ j := by
        intro he; rw [he, hjq] at hold; exact absurd hold (by simp)
      rw [if_neg hne]; exact hold
    · injection h with hinj
      subst hinj
      rw [if_pos rfl, hjb]
      rfl
    · have hold := hs.workerRunning j' (hmem _ (Or.inr h))
      have hne : j' ≠ j := by
        intro he; rw [he, hjq] at hold; exact absurd hold (by simp)
      rw [if_neg hne]; exact hold
  · intro j' h
    simp only [List.mem_append, List.mem_cons] at h
    rw [statusOf_update]
    have hj' : WorkerPhase.finished j' ∈ s.workers := by
      rcases h with h | h | h
      · exact hmem _ (Or.inl h)
      · cases h
      · exact hmem _ (Or.inr h)
    have hold := hs.workerDone j' hj'
    have hne : j' ≠ j := by
      intro he
      subst he
      rcases hold with hold | hold <;> (rw [hjq] at hold; exact absurd hold (by simp))
    rw [if_neg hne]
    exact hold
  · intro k hk
    rw [statusOf_update] at hk
    simp only [List.filterMap_append, List.filterMap_cons, WorkerPhase.procId]
    by_cases hke : k = j
    · subst hke
      simp
    · rw [if_neg hke] at hk
      have hold := hs.runningOwned k hk
      rw [hw] at hold
      simp only [List.filterMap_append, List.filterMap_cons, WorkerPhase.procId] at hold
      rcases List.mem_append.mp hold with h | h
      · exact List.mem_append.mpr (Or.inl h)
      · exact List.mem_append.mpr (Or.inr (List.mem_cons.mpr (Or.inr h)))

theorem inv_progress {π ρ : Type} {s : EState π ρ} (hs : Inv s)
    {l₁ l₂ : List WorkerPhase} {j : Nat} {p : Rat} {msg : String}
    (hw : s.workers = l₁ ++ .processing j :: l₂) :
    Inv ⟨{ s.q with jobs := s.q.jobs.update j (reportProgress p msg) },
         l₁ ++ .processing j :: l₂⟩ := by
  have hstat : ∀ k, statusOf ⟨{ s.q with jobs := s.q.jobs.update j (reportProgress p msg) },
      l₁ ++ .processing j :: l₂⟩ k = statusOf s k := by
    intro k
    rw [statusOf_update]
    by_cases hk : k = j
    · subst hk
      rw [if_pos rfl]
      rfl
    · rw [if_neg hk]
  refine ⟨?_, ?_, ?_, hs.runLe, ?_, ?_, ?_, ?_, ?_, ?_⟩
  · rw [JobMap.keys_update]; exact hs.keysLt
  · rw [JobMap.keys_update]; exact hs.keysNodup
  · rw [← hw]; exact hs.slotCount
  · intro k hk
    rw [hstat]; exact hs.queueStatus k hk
  · rw [← hw]; exact hs.ownNodup
  · intro j' h
    rw [hstat]; exact hs.workerQueued j' (by rw [hw]; exact h)
  · intro j' h
    rw [hstat]; exact hs.workerRunning j' (by rw [hw]; exact h)
  · intro j' h
    rw [hstat]; exact hs.workerDone j' (by rw [hw]; exact h)
  · intro k hk
    rw [hstat] at hk
    rw [← hw]
    exact hs.runningOwned k hk

theorem inv_jobMissing {π ρ : Type} {s : EState π ρ} (hs : Inv s)
    {l₁ l₂ : List WorkerPhase} {j : Nat}
    (hw : s.workers = l₁ ++ .acquired j :: l₂)
    (hfind : s.q.jobs.find j = none) :
    Inv ⟨s.q, l₁ ++ .finished j :: l₂⟩ := by
  have hself : WorkerPhase.acquired j ∈ s.workers := by rw [hw]; simp
  have hjq : statusOf s j = some JobStatus.QUEUED := hs.workerQueued j (Or.inr hself)
  rw [statusOf, hfind] at hjq
  exact absurd hjq (by simp)

theorem inv_finish {π ρ : Type} {s : EState π ρ} (hs : Inv s)
    {l₁ l₂ : List WorkerPhase} {j : Nat} {f : Job π ρ → Job π ρ} {cst : JobStatus}
    (hw : s.workers = l₁ ++ .processing j :: l₂)
    (hcst : cst = JobStatus.DONE ∨ cst = JobStatus.ERROR)
    (hf : ∀ jb : Job π ρ, (f jb).status = cst) :
    Inv ⟨{ s.q with jobs := s.q.jobs.update j f }, l₁ ++ .finished j :: l₂⟩ := by
  obtain ⟨hnotin, hnd⟩ := own_decomp hs hw rfl
  have hmem : ∀ w : WorkerPhase, w ∈ l₁ ∨ w ∈ l₂ → w ∈ s.workers := by
    intro w h; rw [hw]; rcases h with h | h <;> simp [h]
  have hself : WorkerPhase.processing j ∈ s.workers := by rw [hw]; simp
  have hjr : statusOf s j = some JobStatus.RUNNING := hs.workerRunning j hself
  obtain ⟨jb, hjb, hjbst⟩ := find_isSome_of_statusOf hjr
  refine ⟨?_, ?_, ?_, hs.runLe, ?_, ?_, ?_, ?_, ?_, ?_⟩
  · rw [JobMap.keys_update]; exact hs.keysLt
  · rw [JobMap.keys_update]; exact hs.keysNodup
  · have hslot := hs.slotCount
    rw [hw] at hslot
    simp [List.filter_append, List.filter_cons, WorkerPhase.holdsSlot] at hslot ⊢
    omega
  · intro k hk
    rw [statusOf_update]
    have hne : k ≠ j := by
      intro he
      exact hnotin (List.mem_append.mpr (Or.inl (he ▸ hk)))
    rw [if_neg hne]
    exact hs.queueStatus k hk
  · have hnd0 := hs.ownNodup
    rw [hw, owned_split l₁ l₂ (.processing j) rfl] at hnd0
    rw [owned_split l₁ l₂ (.finished j) rfl]
    exact hnd0
  · intro j' h
    simp only [List.mem_append, List.mem_cons] at h
    have hj' : WorkerPhase.gotJob j' ∈ s.workers ∨ WorkerPhase.acquired j' ∈ s.workers := by
      rcases h with (h | h | h) | (h | h | h)
      · exact Or.inl (hmem _ (Or.inl h))
      · cases h
      · exact Or.inl (hmem _ (Or.inr h))
      · exact Or.inr (hmem _ (Or.inl h))
      · cases h
      · exact Or.inr (hmem _ (Or.inr h))
    have hold := hs.workerQueued j' hj'
    rw [statusOf_update]
    have hne : j' ≠ j := by
      intro he; rw [he, hjr] at hold; exact absurd hold (by simp)
    rw [if_neg hne]
    exact hold
  · intro j' h
    simp only [List.mem_append, List.mem_cons] at h
    rw [statusOf_update]
    have hj' : WorkerPhase.processing j' ∈ l₁ ∨ WorkerPhase.processing j' ∈ l₂ := by
      rcases h with h | h | h
      · exact Or.inl h
      · cases h
      · exact Or.inr h
    have hold := hs.workerRunning j' (hmem _ hj')
    have hne : j' ≠ j := by
      intro he
      subst he
      rcases hj' with h1 | h1
      · exact hnotin (List.mem_append.mpr (Or.inr (List.mem_append.mpr
          (Or.inl (List.mem_filterMap.mpr ⟨_, h1, rfl⟩)))))
      · exact hnotin (List.mem_append.mpr (Or.inr (List.mem_append.mpr
          (Or.inr (List.mem_filterMap.mpr ⟨_, h1, rfl⟩)))))
    rw [if_neg hne]
    exact hold
  · intro j' h
    simp only [List.mem_append, List.mem_cons] at h
    rw [statusOf_update]
    rcases h with h | h | h
    · have hold := hs.workerDone j' (hmem _ (Or.inl h))
      have hne : j' ≠ j := by
        intro he
        subst he
        rcases hold with hold | hold <;> (rw [hjr] at hold; exact absurd hold (by simp))
      rw [if_neg hne]
      exact hold
    · injection h with hinj
      subst hinj
      rw [if_pos rfl, hjb]
      rcases hcst with hc | hc
      · exact Or.inl (by simp [hf, hc])
      · exact Or.inr (by simp [hf, hc])
    · have hold := hs.workerDone j' (hmem _ (Or.inr h))
      have hne : j' ≠ j := by
        intro he
        subst he
        rcases hold with hold | hold <;> (rw [hjr] at hold; exact absurd hold (by simp))
      rw [if_neg hne]
      exact hold
  · intro k hk
    rw [statusOf_update] at hk
    simp only [List.filterMap_append, List.filterMap_cons, WorkerPhase.procId]
    by_cases hke : k = j
    · subst hke
      rw [if_pos rfl, hjb] at hk
      have h2 : (f jb).status = JobStatus.RUNNING := by simpa using hk
      rw [hf jb] at h2
      rcases hcst with hc | hc <;> rw [hc] at h2 <;> simp at h2
    · rw [if_neg hke] at hk
      have hold := hs.runningOwned k hk
      rw [hw] at hold
      simp only [List.filterMap_append, List.filterMap_cons, WorkerPhase.procId] at hold
      rcases List.mem_append.mp hold with h | h
      · exact List.mem_append.mpr (Or.inl h)
      · rcases List.mem_cons.mp h with h1 | h1
        · exact absurd h1 hke
        · exact List.mem_append.mpr (Or.inr h1)

theorem inv_enqueue {π ρ : Type} {s : EState π ρ} (hs : Inv s)
    (job_type : String) (params : π) (now : Nat) :
    Inv ⟨(enqueue s.q job_type params now).1, s.workers⟩ := by
  have hfresh : s.q.nextId ∉ s.q.jobs.keys := by
    intro hmem
    exact absurd (hs.keysLt _ hmem) (lt_irrefl _)
  have hqofresh : ∀ k, k ∈ s.q.queue ++ s.workers.filterMap WorkerPhase.ownedId →
      k ≠ s.q.nextId := by
    intro k hk he
    exact absurd (hs.keysLt _ (mem_keys_of_mem_queue_owned hs hk)) (he ▸ lt_irrefl k)
  by_cases hf : putFull s.q
  · simp only [enqueue, hf, if_pos]
    rw [JobMap.erase_insert_cancel _ _ _ hfresh]
    exact hs
  · simp only [enqueue, hf, if_neg, Bool.false_eq_true, not_false_eq_true]
    set nid := s.q.nextId with hnid
    have hfind_old : ∀ k, k ≠ nid →
        JobMap.find (s.q.jobs.insert nid
          { id := nid, type := job_type, status := JobStatus.QUEUED,
            created_at := now, params := params }) k = s.q.jobs.find k := by
      intro k hk
      exact JobMap.find_insert_ne _ _ _ _ hk
    have hfind_new :
        JobMap.find (s.q.jobs.insert nid
          { id := nid, type := job_type, status := JobStatus.QUEUED,
            created_at := now, params := params }) nid =
          some { id := nid, type := job_type, status := JobStatus.QUEUED,
                 created_at := now, params := params } :=
      JobMap.find_insert_self _ _ _ hfresh
    refine ⟨?_, ?_, hs.slotCount, hs.runLe, ?_, ?_, ?_, ?_, ?_, ?_⟩
    · rw [JobMap.keys_insert]
      intro k hk
      rcases List.mem_append.mp hk with h | h
      · exact Nat.lt_succ_of_lt (hs.keysLt _ h)
      · simp only [List.mem_singleton] at h
        exact h ▸ Nat.lt_succ_self _
    · rw [JobMap.keys_insert]
      simp only [List.nodup_append, List.nodup_cons, List.not_mem_nil, not_false_eq_true,
        List.nodup_nil, and_true, true_and]
      exact ⟨hs.keysNodup, fun a ha hmem => by
        simp only [List.mem_singleton] at hmem
        exact hfresh (hmem ▸ ha)⟩
    · intro k hk
      dsimp only [statusOf]
      rcases List.mem_append.mp hk with h | h
      · have hne : k ≠ nid := hqofresh k (List.mem_append.mpr (Or.inl h))
        rw [hfind_old k hne]
        exact hs.queueStatus k h
      · simp only [List.mem_singleton] at h
        subst h
        rw [hfind_new]
        rfl
    · have hperm : List.Perm
          ((s.q.queue ++ [nid]) ++ s.workers.filterMap WorkerPhase.ownedId)
          (nid :: (s.q.queue ++ s.workers.filterMap WorkerPhase.ownedId)) := by
        rw [List.append_assoc]
        exact List.perm_middle
      rw [(hperm.nodup_iff)]
      rw [List.nodup_cons]
      exact ⟨fun hmem => hqofresh _ hmem rfl, hs.ownNodup⟩
    · intro j' h
      have hold := hs.workerQueued j' h
      have hne : j' ≠ nid := by
        intro he
        exact absurd (hs.keysLt _ (mem_keys_of_statusOf hold)) (he ▸ lt_irrefl j')
      dsimp only [statusOf]
      rw [hfind_old j' hne]
      exact hold
    · intro j' h
      have hold := hs.workerRunning j' h
      have hne : j' ≠ nid := by
        intro he
        exact absurd (hs.keysLt _ (mem_keys_of_statusOf hold)) (he ▸ lt_irrefl j')
      dsimp only [statusOf]
      rw [hfind_old j' hne]
      exact hold
    · intro j' h
      have hold := hs.workerDone j' h
      have hne : j' ≠ nid := by
        intro he
        rcases hold with hold | hold <;>
          exact absurd (hs.keysLt _ (mem_keys_of_statusOf hold)) (he ▸ lt_irrefl j')
      dsimp only [statusOf]
      rw [hfind_old j' hne]
      exact hold
    · intro k hk
      dsimp only [statusOf] at hk
      by_cases hke : k = nid
      · subst hke
        rw [hfind_new] at hk
        exact absurd hk (by simp)
      · rw [hfind_old k hke] at hk
        exact hs.runningOwned k hk

theorem inv_init {π ρ : Type} {s : EState π ρ} (h : validInit s) : Inv s := by
  obtain ⟨hq, hj, hr, hw⟩ := h
  have hfe : s.workers.filter WorkerPhase.holdsSlot = [] := by
    rw [List.filter_eq_nil_iff]
    intro w hwm
    rw [hw w hwm]
    simp [WorkerPhase.holdsSlot]
  have hoe : s.workers.filterMap WorkerPhase.ownedId = [] := by
    rw [List.filterMap_eq_nil_iff]
    intro w hwm
    rw [hw w hwm]
    rfl
  refine ⟨?_, ?_, ?_, ?_, ?_, ?_, ?_, ?_, ?_, ?_⟩
  · rw [hj]; intro k hk; cases hk
  · rw [hj]; exact List.nodup_nil
  · rw [hfe, hr]; rfl
  · rw [hr]; exact Nat.zero_le _
  · rw [hq]; intro k hk; cases hk
  · rw [hq, hoe]; exact List.nodup_nil
  · intro j' hj'
    rcases hj' with h1 | h1
    · exact absurd (hw _ h1) (by simp)
    · exact absurd (hw _ h1) (by simp)
  · intro j' h1
    exact absurd (hw _ h1) (by simp)
  · intro j' h1
    exact absurd (hw _ h1) (by simp)
  · intro k hk
    rw [statusOf, hj] at hk
    exact absurd hk (by simp [JobMap.find])

theorem inv_step {π ρ : Type} {s s' : EState π ρ} (hs : Inv s) (h : Step s s') :
    Inv s' := by
  cases h with
  | stepEnqueue job_type params now => exact inv_enqueue hs job_type params now
  | stepDequeue l₁ l₂ j rest hw hq => exact inv_dequeue hs hw hq
  | stepAcquire l₁ l₂ j hw hlt => exact inv_acquire hs hw hlt
  | stepMarkRunning l₁ l₂ j now hw hfind => exact inv_markRunning hs hw
  | stepJobMissing l₁ l₂ j hw hfind => exact inv_jobMissing hs hw hfind
  | stepProgress l₁ l₂ j p msg hw => exact inv_progress hs hw
  | stepFinishOk l₁ l₂ j fin r hw =>
      exact inv_finish hs hw (Or.inl rfl) (fun jb => rfl)
  | stepFinishErr l₁ l₂ j fin e hw =>
      exact inv_finish hs hw (Or.inr rfl) (fun jb => rfl)
  | stepRelease l₁ l₂ j hw => exact inv_release hs hw

/-- Every reachable engine state satisfies the inductive invariant. -/
theorem reachable_inv {π ρ : Type} {s : EState π ρ} (h : Reachable s) : Inv s := by
  induction h with
  | init s h0 => exact inv_init h0
  | step s s' _ hstep ih => exact inv_step ih hstep

theorem JobMap.find_eq_of_mem_nodup {π ρ : Type} {m : JobMap π ρ} {k : Nat}
    {jb : Job π ρ} (hnd : m.keys.Nodup) (hmem : (k, jb) ∈ m) :
    m.find k = some jb := by
  induction m with
  | nil => cases hmem
  | cons a m ih =>
    rcases List.mem_cons.mp hmem with h | h
    · subst h
      simp [JobMap.find, List.find?]
    · have hnd' := List.nodup_cons.mp hnd
      have hka : ¬ a.1 = k := by
        intro he
        exact hnd'.1 (he ▸ List.mem_map_of_mem Prod.fst h)
      simp only [JobMap.find, List.find?, decide_eq_false hka]
      exact ih hnd'.2 h

theorem procId_length_le (ws : List WorkerPhase) :
    (ws.filterMap WorkerPhase.procId).length ≤
      (ws.filter WorkerPhase.holdsSlot).length := by
  induction ws with
  | nil => simp
  | cons w ws ih =>
    cases w <;>
      simp [WorkerPhase.procId, WorkerPhase.holdsSlot, List.filterMap_cons,
        List.filter_cons] <;>
      omega

/-- C8: in every reachable engine state, the number of jobs whose status
is RUNNING is at most `max_concurrent`: a worker increments
`_running_count` only after observing it below the limit (`stepAcquire`),
and a job is marked RUNNING only by a worker that holds a slot
(`stepMarkRunning` requires the `acquired` phase). -/
theorem running_jobs_le_max_concurrent {π ρ : Type} {s : EState π ρ}
    (h : Reachable s) : countRunning s ≤ s.q.max_concurrent := by
  have hs := reachable_inv h
  have h1 : countRunning s =
      ((s.q.jobs.filter (fun p => p.2.status = JobStatus.RUNNING)).map Prod.fst).length := by
    rw [List.length_map]
    rfl
  have hsub : (s.q.jobs.filter (fun p => p.2.status = JobStatus.RUNNING)).map Prod.fst ⊆
      s.workers.filterMap WorkerPhase.procId := by
    intro k hk
    rcases List.mem_map.mp hk with ⟨p, hpmem, hpk⟩
    have hpf := List.of_mem_filter hpmem
    have hpm := List.mem_of_mem_filter hpmem
    have hfind : s.q.jobs.find p.1 = some p.2 :=
      JobMap.find_eq_of_mem_nodup hs.keysNodup (by exact hpm)
    have hst : statusOf s p.1 = some JobStatus.RUNNING := by
      rw [statusOf, hfind]
      simpa using of_decide_eq_true hpf
    exact hpk ▸ hs.runningOwned p.1 hst
  have hnd : ((s.q.jobs.filter (fun p => p.2.status = JobStatus.RUNNING)).map Prod.fst).Nodup := by
    have hsl : (s.q.jobs.filter (fun p => p.2.status = JobStatus.RUNNING)).map Prod.fst
        |>.Sublist (s.q.jobs.map Prod.fst) :=
      List.Sublist.map Prod.fst (List.filter_sublist _)
    exact hs.keysNodup.sublist hsl
  have h2 : ((s.q.jobs.filter (fun p => p.2.status = JobStatus.RUNNING)).map Prod.fst).length ≤
      (s.workers.filterMap WorkerPhase.procId).length :=
    List.Subperm.length_le (List.subperm_of_subset hnd hsub)
  calc countRunning s
      = _ := h1
    _ ≤ (s.workers.filterMap WorkerPhase.procId).length := h2
    _ ≤ (s.workers.filter WorkerPhase.holdsSlot).length := procId_length_le _
    _ = s.q.running_count := hs.slotCount
    _ ≤ s.q.max_concurrent := hs.runLe

/-- C1: along every step from a reachable state, the observable
status of every job either stays the same, appears as QUEUED, moves QUEUED→RUNNING, or
moves RUNNING→{DONE,ERROR}.  Hence the sequence of statuses observed via
`get_status` is a prefix of QUEUED, RUNNING, then exactly one terminal
state: no regression from DONE/ERROR and no skip from QUEUED to a
terminal state. -/
theorem status_transitions_ok {π ρ : Type} {s s' : EState π ρ}
    (hr : Reachable s) (hst : Step s s') (k : Nat) :
    statusStepOk (statusOf s k) (statusOf s' k) := by
  have hs := reachable_inv hr
  cases hst with
  | stepEnqueue job_type params now =>
      have hfresh : s.q.nextId ∉ s.q.jobs.keys := by
        intro hmem
        exact absurd (hs.keysLt _ hmem) (lt_irrefl _)
      by_cases hf : putFull s.q
      · simp only [enqueue, hf, if_pos]
        rw [JobMap.erase_insert_cancel _ _ _ hfresh]
        exact Or.inl rfl
      · simp only [enqueue, hf, if_neg, Bool.false_eq_true, not_false_eq_true]
        by_cases hk : k = s.q.nextId
        · subst hk
          refine Or.inr (Or.inl ⟨?_, ?_⟩)
          · rw [statusOf, JobMap.find_eq_none_of_not_mem hfresh]
            rfl
          · dsimp only [statusOf]
            rw [JobMap.find_insert_self _ _ _ hfresh]
            rfl
        · refine Or.inl ?_
          dsimp only [statusOf]
          rw [JobMap.find_insert_ne _ _ _ _ hk]
  | stepDequeue l₁ l₂ j rest hw hq => exact Or.inl rfl
  | stepAcquire l₁ l₂ j hw hlt => exact Or.inl rfl
  | stepMarkRunning l₁ l₂ j now hw hfind =>
      have hself : WorkerPhase.acquired j ∈ s.workers := by rw [hw]; simp
      have hjq : statusOf s j = some JobStatus.QUEUED := hs.workerQueued j (Or.inr hself)
      obtain ⟨jb, hjb, hjbst⟩ := find_isSome_of_statusOf hjq
      rw [statusOf_update]
      by_cases hk : k = j
      · subst hk
        rw [if_pos rfl, hjb]
        exact Or.inr (Or.inr (Or.inl ⟨hjq, rfl⟩))
      · rw [if_neg hk]
        exact Or.inl rfl
  | stepJobMissing l₁ l₂ j hw hfind => exact Or.inl rfl
  | stepProgress l₁ l₂ j p msg hw =>
      rw [statusOf_update]
      by_cases hk : k = j
      · subst hk
        rw [if_pos rfl]
        exact Or.inl (by rw [statusOf]; rfl)
      · rw [if_neg hk]
        exact Or.inl rfl
  | stepFinishOk l₁ l₂ j fin r hw =>
      have hself : WorkerPhase.processing j ∈ s.workers := by rw [hw]; simp
      have hjr : statusOf s j = some JobStatus.RUNNING := hs.workerRunning j hself
      obtain ⟨jb, hjb, hjbst⟩ := find_isSome_of_statusOf hjr
      rw [statusOf_update]
      by_cases hk : k = j
      · subst hk
        rw [if_pos rfl, hjb]
        exact Or.inr (Or.inr (Or.inr (Or.inl ⟨hjr, rfl⟩)))
      · rw [if_neg hk]
        exact Or.inl rfl
  | stepFinishErr l₁ l₂ j fin e hw =>
      have hself : WorkerPhase.processing j ∈ s.workers := by rw [hw]; simp
      have hjr : statusOf s j = some JobStatus.RUNNING := hs.workerRunning j hself
      obtain ⟨jb, hjb, hjbst⟩ := find_isSome_of_statusOf hjr
      rw [statusOf_update]
      by_cases hk : k = j
      · subst hk
        rw [if_pos rfl, hjb]
        exact Or.inr (Or.inr (Or.inr (Or.inr ⟨hjr, rfl⟩)))
      · rw [if_neg hk]
        exact Or.inl rfl
  | stepRelease l₁ l₂ j hw => exact Or.inl rfl

theorem enqueue_ok_of_room {π ρ : Type} (s : QState π ρ) (job_type : String)
    (params : π) (now : Nat) (h : s.queue.length < s.max_queue_size) :
    (enqueue s job_type params now).2 = Except.ok s.nextId ∧
    (enqueue s job_type params now).1.queue.length = s.queue.length + 1 ∧
    (enqueue s job_type params now).1.max_queue_size = s.max_queue_size := by
  have hnf : ¬ putFull s := by
    simp only [putFull, decide_eq_true_eq]
    intro hc
    omega
  simp [enqueue, hnf]

theorem enqueueN_fills {π ρ : Type} (s : QState π ρ) (job_type : String)
    (params : π) (now : Nat) :
    ∀ n, s.queue.length + n ≤ s.max_queue_size →
      (enqueueN s job_type params now n).queue.length = s.queue.length + n ∧
      (enqueueN s job_type params now n).max_queue_size = s.max_queue_size := by
  intro n
  induction n with
  | zero => intro _; exact ⟨rfl, rfl⟩
  | succ n ih =>
    intro hle
    obtain ⟨hlen, hmax⟩ := ih (by omega)
    have hroom : (enqueueN s job_type params now n).queue.length <
        (enqueueN s job_type params now n).max_queue_size := by
      rw [hlen, hmax]; omega
    obtain ⟨_, h2, h3⟩ := enqueue_ok_of_room _ job_type params now hroom
    refine ⟨?_, ?_⟩
    · show (enqueue (enqueueN s job_type params now n) job_type params now).1.queue.length = _
      omega
    · show (enqueue (enqueueN s job_type params now n) job_type params now).1.max_queue_size = _
      rw [h3, hmax]

/-- C2: starting from a freshly constructed queue with capacity `C > 0`
and no draining worker, each of the first `C` `enqueue` calls returns
`.ok` with a job id, the `(C+1)`-th call fails with the `queue.Full`
backpressure error, and after one entry has been dequeued a further
`enqueue` succeeds again.  `enqueue` is a total function of the state, so
no call blocks. -/
theorem enqueue_backpressure {π ρ : Type} (C : Nat) (hC : 0 < C)
    (job_type : String) (params : π) (now : Nat) (s0 : QState π ρ)
    (hq0 : s0.queue = []) (hcap : s0.max_queue_size = C) :
    (∀ n, n < C → ∃ id, (enqueue (enqueueN s0 job_type params now n)
        job_type params now).2 = Except.ok id) ∧
    (enqueue (enqueueN s0 job_type params now C) job_type params now).2 =
      Except.error ("Job queue is full - try again later") ∧
    (∀ j s1, dequeue (enqueueN s0 job_type params now C) = some (j, s1) →
      ∃ id, (enqueue s1 job_type params now).2 = Except.ok id) := by
  have hlen0 : s0.queue.length = 0 := by rw [hq0]; rfl
  refine ⟨?_, ?_, ?_⟩
  · intro n hn
    obtain ⟨hlen, hmax⟩ := enqueueN_fills s0 job_type params now n (by omega)
    have hroom : (enqueueN s0 job_type params now n).queue.length <
        (enqueueN s0 job_type params now n).max_queue_size := by
      rw [hlen, hmax]; omega
    exact ⟨_, (enqueue_ok_of_room _ job_type params now hroom).1⟩
  · obtain ⟨hlen, hmax⟩ := enqueueN_fills s0 job_type params now C (by omega)
    have hfull : putFull (enqueueN s0 job_type params now C) := by
      simp only [putFull, decide_eq_true_eq]
      constructor
      · rw [hmax, hcap]; exact hC
      · rw [hlen, hmax, hcap]; omega
    simp [enqueue, hfull]
  · intro j s1 hdq
    obtain ⟨hlen, hmax⟩ := enqueueN_fills s0 job_type params now C (by omega)
    unfold dequeue at hdq
    cases hqs : (enqueueN s0 job_type params now C).queue with
    | nil => rw [hqs] at hdq; cases hdq
    | cons a rest =>
      rw [hqs] at hdq
      have hs1 : s1 = { enqueueN s0 job_type params now C with queue := rest } := by
        cases hdq
        rfl
      have hrest : rest.length + 1 = C := by
        have := hlen
        rw [hqs] at this
        simp only [List.length_cons, hlen0, hcap, Nat.zero_add] at this
        omega
      have hroom : s1.queue.length < s1.max_queue_size := by
        rw [hs1]
        show rest.length < (enqueueN s0 job_type params now C).max_queue_size
        rw [hmax, hcap]
        omega
      exact ⟨_, (enqueue_ok_of_room _ job_type params now hroom).1⟩

/-- C10: when `enqueue` hits a full queue, the job record inserted for
the rejected submission is deleted again before the error propagates: the
returned state is exactly the pre-call state, and `get_status` on the
id of the rejected submission answers not-found.  The freshness hypothesis
is the uuid4 model: the generated id is not already a tracked job id. -/
theorem enqueue_full_rollback {π ρ : Type} (s : QState π ρ) (job_type : String)
    (params : π) (now : Nat)
    (hwf : ∀ k ∈ s.jobs.keys, k < s.nextId)
    (hfull : putFull s) :
    (enqueue s job_type params now).1 = s ∧
    (enqueue s job_type params now).2 =
      Except.error ("Job queue is full - try again later") ∧
    get_status (enqueue s job_type params now).1 s.nextId = none := by
  have hfresh : s.nextId ∉ s.jobs.keys := by
    intro hmem
    exact absurd (hwf _ hmem) (lt_irrefl _)
  have h1 : (enqueue s job_type params now).1 = s := by
    simp only [enqueue, hfull, if_pos]
    rw [JobMap.erase_insert_cancel _ _ _ hfresh]
  refine ⟨h1, ?_, ?_⟩
  · simp [enqueue, hfull]
  · rw [h1]
    exact JobMap.find_eq_none_of_not_mem hfresh

theorem markRunning_type {π ρ : Type} (now : Nat) (j : Job π ρ) :
    (markRunning now j).type = j.type := rfl

theorem markRunning_params {π ρ : Type} (now : Nat) (j : Job π ρ) :
    (markRunning now j).params = j.params := rfl

theorem processJob_ok {π ρ : Type} (handlers : String → Option (Handler π ρ))
    (now fin : Nat) (job : Job π ρ) (h : Handler π ρ) (r : ρ)
    (hreg : handlers job.type = some h)
    (hok : (h job.params).outcome = Except.ok r) :
    processJob handlers now fin job =
      completeOk fin r (applyProgress (markRunning now job) (h job.params).events) := by
  unfold processJob
  dsimp only
  rw [markRunning_type, hreg]
  dsimp only
  rw [markRunning_params, hok]

theorem processJob_err {π ρ : Type} (handlers : String → Option (Handler π ρ))
    (now fin : Nat) (job : Job π ρ) (h : Handler π ρ) (e : String)
    (hreg : handlers job.type = some h)
    (herr : (h job.params).outcome = Except.error e) :
    processJob handlers now fin job =
      completeErr fin e (applyProgress (markRunning now job) (h job.params).events) := by
  unfold processJob
  dsimp only
  rw [markRunning_type, hreg]
  dsimp only
  rw [markRunning_params, herr]

theorem processJob_nohandler {π ρ : Type} (handlers : String → Option (Handler π ρ))
    (now fin : Nat) (job : Job π ρ)
    (hmiss : handlers job.type = none) :
    processJob handlers now fin job =
      completeErr fin ("No handler registered for job type: " ++ job.type)
        (markRunning now job) := by
  unfold processJob
  dsimp only
  rw [markRunning_type, hmiss]

theorem formatExc_ne_empty (e : String) : formatExc e ≠ "" := by
  intro hemp
  unfold formatExc at hemp
  have hd := congrArg String.data hemp
  rw [String.data_append] at hd
  have h2 := List.append_eq_nil.mp hd
  have h3 : ("Traceback (most recent call last): Exception: " : String).data ≠ [] := by
    decide
  exact h3 h2.1

/-- C3: whenever a registered handler returns normally, `_process_job`
marks the job DONE, stores the returned value as `result`, and forces
`progress` to exactly `1.0` regardless of the last fraction the handler
reported through the progress callback. -/
theorem handler_ok_forces_done {π ρ : Type}
    (handlers : String → Option (Handler π ρ)) (now fin : Nat)
    (job : Job π ρ) (h : Handler π ρ) (r : ρ)
    (hreg : handlers job.type = some h)
    (hok : (h job.params).outcome = Except.ok r) :
    (processJob handlers now fin job).status = JobStatus.DONE ∧
    (processJob handlers now fin job).result = some r ∧
    (processJob handlers now fin job).progress = 1 := by
  rw [processJob_ok handlers now fin job h r hreg hok]
  exact ⟨rfl, rfl, rfl⟩

/-- C4 (amended): whenever a registered handler raises, `_process_job`
marks the job ERROR, stores the `str` of the exception (which is empty exactly
when the message of the exception is) as `error`, stores the always non-empty
traceback in `progress_message`, and leaves `progress` at the value last
reported through the progress callback. -/
theorem handler_err_marks_error {π ρ : Type}
    (handlers : String → Option (Handler π ρ)) (now fin : Nat)
    (job : Job π ρ) (h : Handler π ρ) (e : String)
    (hreg : handlers job.type = some h)
    (herr : (h job.params).outcome = Except.error e) :
    (processJob handlers now fin job).status = JobStatus.ERROR ∧
    (processJob handlers now fin job).error = some e ∧
    (processJob handlers now fin job).progress_message = formatExc e ∧
    formatExc e ≠ "" ∧
    (processJob handlers now fin job).progress =
      (applyProgress (markRunning now job) (h job.params).events).progress := by
  rw [processJob_err handlers now fin job h e hreg herr]
  exact ⟨rfl, rfl, rfl, formatExc_ne_empty e, rfl⟩

/-- C5: a job whose type has no registered handler is marked ERROR with a
message that contains the literal job-type string, and the worker loop
goes on to process the next dequeued job normally (here: the next job,
whose handler succeeds, still reaches DONE). -/
theorem unregistered_type_errors {π ρ : Type}
    (handlers : String → Option (Handler π ρ)) (now fin : Nat)
    (m : JobMap π ρ) (i₁ i₂ : Nat) (j₁ j₂ : Job π ρ) (h : Handler π ρ) (r : ρ)
    (hne : i₁ ≠ i₂)
    (hf₁ : m.find i₁ = some j₁) (hf₂ : m.find i₂ = some j₂)
    (hmiss : handlers j₁.type = none)
    (hreg : handlers j₂.type = some h)
    (hok : (h j₂.params).outcome = Except.ok r) :
    ((runJobs handlers now fin m [i₁, i₂]).find i₁).map Job.status =
      some JobStatus.ERROR ∧
    ((runJobs handlers now fin m [i₁, i₂]).find i₁).map Job.error =
      some (some ("No handler registered for job type: " ++ j₁.type)) ∧
    j₁.type.data <:+: ("No handler registered for job type: " ++ j₁.type).data ∧
    ((runJobs handlers now fin m [i₁, i₂]).find i₂).map Job.status =
      some JobStatus.DONE := by
  have hrun : runJobs handlers now fin m [i₁, i₂] =
      (m.update i₁ (processJob handlers now fin)).update i₂
        (processJob handlers now fin) := rfl
  have hfind₁ : (runJobs handlers now fin m [i₁, i₂]).find i₁ =
      some (processJob handlers now fin j₁) := by
    rw [hrun, JobMap.find_update_ne _ _ _ _ hne, JobMap.find_update_self, hf₁]
    rfl
  have hfind₂ : (runJobs handlers now fin m [i₁, i₂]).find i₂ =
      some (processJob handlers now fin j₂) := by
    rw [hrun, JobMap.find_update_self, JobMap.find_update_ne _ _ _ _ (Ne.symm hne), hf₂]
    rfl
  refine ⟨?_, ?_, ?_, ?_⟩
  · rw [hfind₁, processJob_nohandler handlers now fin j₁ hmiss]
    rfl
  · rw [hfind₁, processJob_nohandler handlers now fin j₁ hmiss]
    rfl
  · exact ⟨("No handler registered for job type: " : String).data, [],
      by rw [String.data_append]; simp⟩
  · rw [hfind₂, processJob_ok handlers now fin j₂ h r hreg hok]
    rfl

theorem handler_ok_forces_done_witness :
    (processJob testHandlers 1 2 (mkJob 1 ("echo") [("k", "v")])).status =
      JobStatus.DONE ∧
    (processJob testHandlers 1 2 (mkJob 1 ("echo") [("k", "v")])).result =
      some [("k", "v")] ∧
    (processJob testHandlers 1 2 (mkJob 1 ("echo") [("k", "v")])).progress = 1 :=
  handler_ok_forces_done testHandlers 1 2 (mkJob 1 ("echo") [("k", "v")])
    echoHandler [("k", "v")] rfl rfl

/-- C4 (counterexample): a handler that reports `(0.4, "working")` and
then raises an exception whose message is empty yields a job in ERROR
whose stored `error` is the *empty* string — the claim's "stores a
non-empty error message" fails on this input. -/
theorem empty_exception_message_stored :
    (processJob testHandlers 1 2 (mkJob 3 ("boom-empty") [])).status =
      JobStatus.ERROR ∧
    (processJob testHandlers 1 2 (mkJob 3 ("boom-empty") [])).error = some ("") ∧
    (processJob testHandlers 1 2 (mkJob 3 ("boom-empty") [])).progress = 2/5 := by
  refine ⟨rfl, rfl, ?_⟩
  show ((2:Rat)/5) = 2/5
  rfl

theorem handler_err_marks_error_witness :
    (processJob testHandlers 1 2 (mkJob 2 ("boom") [("k", "v")])).status =
      JobStatus.ERROR ∧
    (processJob testHandlers 1 2 (mkJob 2 ("boom") [("k", "v")])).error =
      some ("boom stage failed") ∧
    (processJob testHandlers 1 2 (mkJob 2 ("boom") [("k", "v")])).progress = 2/5 ∧
    (processJob testHandlers 1 2 (mkJob 2 ("boom") [("k", "v")])).progress_message ≠ "" := by
  obtain ⟨h1, h2, h3, h4, h5⟩ := handler_err_marks_error testHandlers 1 2
    (mkJob 2 ("boom") [("k", "v")]) boomHandler ("boom stage failed") rfl rfl
  refine ⟨h1, h2, ?_, ?_⟩
  · rw [h5]
    rfl
  · rw [h3]
    exact h4

theorem unregistered_type_errors_witness :
    ((runJobs testHandlers 0 1 m5 [1, 2]).find 1).map Job.status =
      some JobStatus.ERROR ∧
    ((runJobs testHandlers 0 1 m5 [1, 2]).find 1).map Job.error =
      some (some ("No handler registered for job type: " ++
        (mkJob 1 ("no-such-type") []).type)) ∧
    (mkJob 1 ("no-such-type") []).type.data <:+:
      ("No handler registered for job type: " ++
        (mkJob 1 ("no-such-type") []).type).data ∧
    ((runJobs testHandlers 0 1 m5 [1, 2]).find 2).map Job.status =
      some JobStatus.DONE :=
  unregistered_type_errors testHandlers 0 1 m5 1 2
    (mkJob 1 ("no-such-type") []) (mkJob 2 ("echo") [("k", "v")])
    echoHandler [("k", "v")] (by decide) rfl rfl rfl rfl rfl

theorem status_transitions_ok_witness :
    statusStepOk (statusOf E0 0) (statusOf E1 0) :=
  status_transitions_ok
    (Reachable.init E0 ⟨rfl, rfl, rfl, fun _ hw => List.mem_singleton.mp hw⟩)
    (Step.stepEnqueue E0 ("process_document") [] 0) 0

theorem running_jobs_le_max_concurrent_witness :
    countRunning E1 ≤ E1.q.max_concurrent :=
  running_jobs_le_max_concurrent
    (Reachable.step E0 E1
      (Reachable.init E0 ⟨rfl, rfl, rfl, fun _ hw => List.mem_singleton.mp hw⟩)
      (Step.stepEnqueue E0 ("process_document") [] 0))

theorem enqueue_backpressure_witness :
    (∃ id, (enqueue (enqueueN Q0 ("process_document") [] 0 0)
      "process_document" [] 0).2 = Except.ok id) ∧
    (∃ id, (enqueue (enqueueN Q0 ("process_document") [] 0 1)
      "process_document" [] 0).2 = Except.ok id) ∧
    (enqueue (enqueueN Q0 ("process_document") [] 0 2) ("process_document") [] 0).2 =
      Except.error ("Job queue is full - try again later") ∧
    (∃ id, (enqueue { enqueueN Q0 ("process_document") [] 0 2 with queue := [1] }
      "process_document" [] 0).2 = Except.ok id) := by
  have h := enqueue_backpressure 2 (by decide) ("process_document") [] 0 Q0 rfl rfl
  exact ⟨h.1 0 (by decide), h.1 1 (by decide), h.2.1, h.2.2 0 _ rfl⟩

theorem enqueue_full_rollback_witness :
    (enqueue QF ("process_document") [] 5).1 = QF ∧
    (enqueue QF ("process_document") [] 5).2 =
      Except.error ("Job queue is full - try again later") ∧
    get_status (enqueue QF ("process_document") [] 5).1 QF.nextId = none :=
  enqueue_full_rollback QF ("process_document") [] 5
    (by decide) (by decide)

end JobQueueModel

namespace DocPipeline

open JobQueueModel

theorem fsFind_write_fresh (fs : FileSys) (p : String) (c : List Nat)
    (h : fsFind fs p = none) : fsFind (fsWrite fs p c) p = some c := by
  induction fs with
  | nil => simp [fsFind, fsWrite, List.find?]
  | cons a fs ih =>
    by_cases hp : a.1 = p
    · simp [fsFind, List.find?, hp] at h
    · simp only [fsFind, fsWrite, List.cons_append, List.find?,
        decide_eq_false hp] at h ih ⊢
      exact ih h

/-- C6 (failing input): submitting a fresh document with extractable text
through `process_document` never reaches DONE/"success": the entity stage
raises `AttributeError` (no `extract_entities` on `EntityManager`), so
the first job errors, nothing is persisted, and a resubmission of the
identical bytes errors the same way instead of short-circuiting as a
duplicate. -/
theorem ingest_first_submission_errors :
    (process_document testDocEnv testFs emptyStore testDoc).outcome =
      Except.error ("AttributeError: EntityManager object has no attribute extract_entities") ∧
    (process_document testDocEnv testFs emptyStore testDoc).store = emptyStore ∧
    (process_document testDocEnv testFs
        (process_document testDocEnv testFs emptyStore testDoc).store testDoc).outcome =
      Except.error ("AttributeError: EntityManager object has no attribute extract_entities") := by
  refine ⟨?_, ?_, ?_⟩ <;> rfl

/-- C7 (counterexample): an ingestion job whose entity-extraction stage
fails is not continued with an empty entity set: the exception propagates
out of the handler and the worker marks the job ERROR. -/
theorem entity_failure_marks_job_error :
    (JobQueueModel.processJob
      (fun t => if t = "process_document"
        then some (fun p =>
          { events := (process_document testDocEnv testFs emptyStore p).events,
            outcome := (process_document testDocEnv testFs emptyStore p).outcome })
        else none)
      0 1
      { id := 1, type := "process_document", status := JobStatus.QUEUED,
        created_at := 0, params := testDoc }).status = JobStatus.ERROR ∧
    (JobQueueModel.processJob
      (fun t => if t = "process_document"
        then some (fun p =>
          { events := (process_document testDocEnv testFs emptyStore p).events,
            outcome := (process_document testDocEnv testFs emptyStore p).outcome })
        else none)
      0 1
      { id := 1, type := "process_document", status := JobStatus.QUEUED,
        created_at := 0, params := testDoc }).error =
      some ("AttributeError: EntityManager object has no attribute extract_entities") := by
  exact ⟨rfl, rfl⟩

/-- C7 (amended): in the registered pipeline an entity-extraction failure
is fatal: whenever a non-duplicate document with extractable non-blank
text reaches stage 3, `process_document` raises the entity-stage
exception (there is no try/except around it), leaving the store
untouched; at the worker boundary this surfaces as job ERROR. -/
theorem entity_failure_is_fatal (env : PEnv) (fs : FileSys) (store : Store)
    (p : DocParams) (bytes : List Nat) (text : String)
    (hfile : fsFind fs p.file_path = some bytes)
    (hdup : check_duplicate env store (env.hash bytes) = false)
    (hex : env.extractText bytes = Except.ok text)
    (htrim : isBlank text = false) :
    (process_document env fs store p).outcome =
      Except.error ("AttributeError: EntityManager object has no attribute extract_entities") ∧
    (process_document env fs store p).store = store := by
  unfold process_document
  simp [compute_file_hash, extractor_extract, hfile, hdup, hex, htrim,
    extract_entities_em]

theorem entity_failure_is_fatal_witness :
    (process_document testDocEnv testFs emptyStore testDoc).outcome =
      Except.error ("AttributeError: EntityManager object has no attribute extract_entities") ∧
    (process_document testDocEnv testFs emptyStore testDoc).store = emptyStore :=
  entity_failure_is_fatal testDocEnv testFs emptyStore testDoc [1, 2, 3]
    ("hello world") rfl rfl rfl rfl

/-- C9 (counterexample): after a completed sync job over one fresh file,
the downloaded artifact is still on disk and the iteration was counted as
an error — the handler did not delete its temporary file on this exit
path. -/
theorem sync_leaves_downloaded_file :
    fsFind (sync_onedrive_folder testDocEnv [odFileA] sync0).fs ("a.txt") =
      some [1, 2, 3] ∧
    (sync_onedrive_folder testDocEnv [odFileA] sync0).errors = 1 := by
  exact ⟨rfl, rfl⟩

/-- C9 (amended): the sync loop deletes the downloaded file only on its
duplicate-skip and post-process branches; the per-file error branch keeps
it.  In the code as written every iteration with a successful download
takes the error branch — `download_file` returns a Bool which the loop
then uses as the local path, so hashing raises — and the downloaded file
survives the completed job. -/
theorem sync_error_path_keeps_file (env : PEnv) (st : SyncState) (f : ODFile)
    (hfresh : fsFind st.fs f.name = none)
    (hdl : env.httpOk f.id = true) :
    fsFind (syncFile env st f).fs f.name = some f.content ∧
    (syncFile env st f).errors = st.errors + 1 := by
  unfold syncFile download_file
  rw [hdl]
  simp only [if_true, compute_file_hash]
  exact ⟨fsFind_write_fresh st.fs f.name f.content hfresh, trivial⟩

theorem sync_error_path_keeps_file_witness :
    fsFind (syncFile testDocEnv sync0 odFileA).fs ("a.txt") = some [1, 2, 3] ∧
    (syncFile testDocEnv sync0 odFileA).errors = 1 :=
  sync_error_path_keeps_file testDocEnv sync0 odFileA rfl rfl

end DocPipeline
